import Mathlib

/-!
# paramlogger: the parameter-logging middleware

A shallow embedding of `paramlogger/param_logger.go` and the properties of
its redaction function `maskSecrets` and of the handler returned by
`Middleware`.

Conventions of the embedding.

* `url.Values` (`map[string][]string`) is an association list with unique
  keys, `AList`; a map assignment `m[k] = v` is `AList.insert`, a map read is
  `AList.lookup`, and `range` visits the entries of the list.  Go leaves the
  iteration order of a map unspecified: every statement below is quantified
  over all association lists, hence over all orders, and speaks about the
  result through `lookup` only.
* A slice of strings is a `List String` (the nil slice and the empty slice
  are both `[]`).
* `strings.ToUpper` and `json.Marshal` belong to the Go standard library, and
  `ParameterExclusionList` is a package variable the application may
  reassign: the three are parameters of the definitions that use them.
-/

namespace paramlogger

/-- The type `url.Values`: a finite map from field names to value sequences. -/
abbrev Values := AList (fun _ : String => List String)

/-- The initial value of the package variable `ParameterExclusionList`. -/
def defaultParameterExclusionList : List String :=
  ["Password", "PasswordConfirmation", "CreditCard", "CVC"]

/-- The package variable `filteredIndicator`. -/
def filteredIndicator : List String := ["[FILTERED]"]

/-- The struct `parameterLogger`. -/
structure parameterLogger where
  excluded : List String

/-- The loop labelled `blcheck` in `maskSecrets`, run for one `key` of the
form over the entries of the exclusion list still to visit: each iteration
first assigns `copy[key] = values`, then compares the upper-cased names and,
on a match, assigns `copy[key] = filteredIndicator` and breaks. -/
def blcheck (ToUpper : String → String) (key : String) (values : List String) :
    List String → Values → Values
  | [], copy => copy
  | excluded :: rest, copy =>
    let copy := copy.insert key values
    if ToUpper key = ToUpper excluded then
      copy.insert key filteredIndicator
    else
      blcheck ToUpper key values rest copy

/-- The method `parameterLogger.maskSecrets`.  `ParameterExclusionList` is the
value of the package variable at the time of the call. -/
def maskSecrets (ToUpper : String → String) (ParameterExclusionList : List String)
    (pl : parameterLogger) (form : Values) : Values :=
  let excluded :=
    if pl.excluded.length = 0 then ParameterExclusionList else pl.excluded
  form.entries.foldl
    (fun copy kv => blcheck ToUpper kv.1 kv.2 excluded copy) ∅

/-- Upper-casing of the ASCII letters, on which `strings.ToUpper` agrees with
it for strings of ASCII characters; it instantiates the `ToUpper` parameter at
concrete inputs. -/
def asciiToUpper (s : String) : String :=
  String.mk (s.data.map Char.toUpper)

/-- The one-entry map `k ↦ v`. -/
def Values.single (k : String) (v : List String) : Values :=
  (∅ : Values).insert k v

/-- Method `url.Values.Add`: `v[key] = append(v[key], value)`. -/
def Values.Add (v : Values) (key value : String) : Values :=
  v.insert key ((v.lookup key).getD [] ++ [value])

/-- The struct `multipart.FileHeader`: the name of an uploaded file, its size
and its content. -/
structure FileHeader where
  Filename : String
  Size : Nat
  content : List Nat

/-- The struct `multipart.Form`: the value fields and the file fields of a
decoded multipart body. -/
structure MultipartForm where
  Value : Values
  File : AList (fun _ : String => List FileHeader)

/-- The fields of `http.Request` the middleware reads; `MultipartForm` is
`none` for the nil pointer. -/
structure Request where
  Method : String
  MultipartForm : Option MultipartForm
  Form : Values

/-- The interface `buffalo.ParamValues` as returned by `c.Params()`: either a
`url.Values`, or a value of another type implementing `Get`. -/
inductive ParamValues where
  | urlValues (v : Values)
  | other (Get : String → String)

/-- Go errors: one raised outside this package (by the downstream handler or
by `json.Marshal`), or the wrapping
`fmt.Errorf("unable to add form field %v: %w", form, err)`. -/
inductive Error where
  | external (msg : String)
  | unableToAddFormField (form : Values) (err : Error)
  deriving DecidableEq

/-- What the middleware reads of a `buffalo.Context`. -/
structure Context where
  Request : Request
  Params : ParamValues

/-- The observable actions of the handler returned by `Middleware`, in program
order: the call `next(c)`, a call `c.LogField(key, value)` and a call
`c.Logger().Error(err)`. -/
inductive Event where
  | next
  | LogField (key value : String)
  | LogError (err : Error)
  deriving DecidableEq

/-- A `buffalo.Handler` as the middleware sees it: it may change the context
and returns nil (`none`) or an error. -/
abbrev Handler := Context → Context × Option Error

/-- The type of `json.Marshal` at the static type `url.Values`; the argument
`none` is the nil map. -/
abbrev Marshaler := Option Values → Except Error String

/-- The method `parameterLogger.addFormFieldTo`: the events it performs and the
error it returns. -/
def addFormFieldTo (ToUpper : String → String) (ParameterExclusionList : List String)
    (Marshal : Marshaler) (pl : parameterLogger) (form : Values) :
    List Event × Option Error :=
  let maskedForm := maskSecrets ToUpper ParameterExclusionList pl form
  match Marshal (some maskedForm) with
  | .error err => ([], some err)
  | .ok b => ([Event.LogField "form" b], none)

/-- The map `uv` built by the two loops of `multipartParamLogger`. -/
def multipartValues (mp : MultipartForm) : Values :=
  let uv : Values := ∅
  let uv := mp.Value.entries.foldl
    (fun uv kv => kv.2.foldl (fun uv vv => uv.Add kv.1 vv) uv) uv
  mp.File.entries.foldl
    (fun uv kv => kv.2.foldl (fun uv vv => uv.Add kv.1 vv.Filename) uv) uv

/-- The method `parameterLogger.multipartParamLogger`. -/
def multipartParamLogger (ToUpper : String → String) (ParameterExclusionList : List String)
    (Marshal : Marshaler) (pl : parameterLogger) (mp : MultipartForm) :
    List Event × Option Error :=
  let uv := multipartValues mp
  match addFormFieldTo ToUpper ParameterExclusionList Marshal pl uv with
  | (evs, some err) => (evs, some (Error.unableToAddFormField uv err))
  | (evs, none) => (evs, none)

/-- The method `parameterLogger.logForm`. -/
def logForm (ToUpper : String → String) (ParameterExclusionList : List String)
    (Marshal : Marshaler) (pl : parameterLogger) (c : Context) :
    List Event × Option Error :=
  let req := c.Request
  match req.MultipartForm with
  | some mp => multipartParamLogger ToUpper ParameterExclusionList Marshal pl mp
  | none =>
    match addFormFieldTo ToUpper ParameterExclusionList Marshal pl req.Form with
    | (evs, some err) => (evs, some (Error.unableToAddFormField req.Form err))
    | (evs, none) => (evs, none)

/-- The deferred function of the handler returned by `Middleware`, run on the
context as `next` left it.  When `json.Marshal` fails it returns a nil byte
slice, so `string(b)` is the empty string. -/
def finalizer (ToUpper : String → String) (ParameterExclusionList : List String)
    (Marshal : Marshaler) (pl : parameterLogger) (c : Context) : List Event :=
  let req := c.Request
  let formEvents :=
    if req.Method ≠ "GET" then
      match logForm ToUpper ParameterExclusionList Marshal pl c with
      | (evs, some err) => evs ++ [Event.LogError err]
      | (evs, none) => evs
    else []
  let params : Option Values :=
    match c.Params with
    | .urlValues params => some (maskSecrets ToUpper ParameterExclusionList pl params)
    | .other _ => none
  let paramEvents :=
    match Marshal params with
    | .error err => [Event.LogError err, Event.LogField "params" ""]
    | .ok b => [Event.LogField "params" b]
  formEvents ++ paramEvents

/-- One run of the handler returned by `Middleware`: the actions of its body in
program order, the context afterwards and the value it returns. -/
structure Outcome where
  trace : List Event
  context : Context
  result : Option Error

/-- The method `parameterLogger.Middleware`: the returned handler calls
`next(c)`, keeps its result as the return value, and then runs the deferred
function. -/
def Middleware (ToUpper : String → String) (ParameterExclusionList : List String)
    (Marshal : Marshaler) (pl : parameterLogger) (next : Handler) (c : Context) : Outcome :=
  let (c, r) := next c
  { trace := Event.next :: finalizer ToUpper ParameterExclusionList Marshal pl c
    context := c
    result := r }

/-- The function `ParameterLogger`: the middleware with the package variable
as the exclusion list. -/
def ParameterLogger (ToUpper : String → String) (ParameterExclusionList : List String)
    (Marshal : Marshaler) (next : Handler) (c : Context) : Outcome :=
  let pl : parameterLogger := { excluded := ParameterExclusionList }
  Middleware ToUpper ParameterExclusionList Marshal pl next c

/-- A JSON string literal: the text between double quotes, with the double
quote and the backslash escaped. -/
def jsonString (s : String) : String :=
  let esc (c : Char) : List Char :=
    if c = '"' then ['\\', '"'] else if c = '\\' then ['\\', '\\'] else [c]
  String.mk ('"' :: (s.data.flatMap esc ++ ['"']))

/-- Joins texts with commas. -/
def commaSep : List String → String
  | [] => ""
  | [x] => x
  | x :: xs => x ++ "," ++ commaSep xs

/-- The order in which `json.Marshal` emits map keys: code point by code
point. -/
def keyLE : List Char → List Char → Bool
  | [], _ => true
  | _ :: _, [] => false
  | a :: as, b :: bs => a.toNat < b.toNat || (a.toNat = b.toNat && keyLE as bs)

/-- A serializer standing in for `json.Marshal` on `url.Values` at concrete
inputs: `null` for the nil map, otherwise an object whose members come in the
sorted order of the keys, each value an array of string literals.  It never
fails. -/
def jsonMarshal : Marshaler
  | none => .ok "null"
  | some m =>
    let sorted := m.entries.insertionSort (fun a b => keyLE a.1.data b.1.data = true)
    let members := sorted.map
      (fun kv => jsonString kv.1 ++ ":[" ++ commaSep (kv.2.map jsonString) ++ "]")
    .ok ("\x7b" ++ commaSep members ++ "\x7d")

/-- A serializer that fails on every input.  `json.Marshal` itself does not
fail on a `url.Values`; this one stands for the error return that lines 56
and 104 of the source test for. -/
def failingMarshal : Marshaler :=
  fun _ => .error (Error.external "json: unsupported value")

/-- The exclusion list `maskSecrets` compares with: the receiver's list when it
is non-empty, otherwise the value of `ParameterExclusionList`. -/
def effectiveList (ParameterExclusionList : List String) (pl : parameterLogger) :
    List String :=
  if pl.excluded = [] then ParameterExclusionList else pl.excluded

/-- Some entry of the list `l` equals `key` after upper-casing both. -/
def isExcluded (ToUpper : String → String) (l : List String) (key : String) : Bool :=
  l.any (fun excluded => decide (ToUpper key = ToUpper excluded))

/-- The value a redacted map holds for a key that `l` excludes or not. -/
def redact (ToUpper : String → String) (l : List String) (key : String)
    (values : List String) : List String :=
  if isExcluded ToUpper l key then filteredIndicator else values

/-- What a multipart form submits under the name `k`: the values of the value
field `k` followed by the filenames of the files of the file field `k`, each
part empty when the form has no such field. -/
def combinedValues (mp : MultipartForm) (k : String) : List String :=
  (mp.Value.lookup k).getD [] ++ ((mp.File.lookup k).getD []).map FileHeader.Filename

/-- The map `logForm` redacts and serializes: the combined map of the multipart
form when the request was decoded as multipart, otherwise `req.Form`. -/
def formValues (c : Context) : Values :=
  match c.Request.MultipartForm with
  | some mp => multipartValues mp
  | none => c.Request.Form

/-- The value of the variable `params` when the deferred function serializes
it: the redacted map when `c.Params()` is a `url.Values`, and otherwise the
zero value of `url.Values`, the nil map, which the failed type assertion
assigns. -/
def loggedParams (ToUpper : String → String) (ParameterExclusionList : List String)
    (pl : parameterLogger) (c : Context) : Option Values :=
  match c.Params with
  | .urlValues params => some (maskSecrets ToUpper ParameterExclusionList pl params)
  | .other _ => none

/-- An event is an error-level log entry. -/
def Event.isError : Event → Bool
  | .LogError _ => true
  | _ => false

/-- The any-match policy on a map: every key keeps its place, and its values
are replaced by the sentinel when some entry of `l` equals the key after
upper-casing both, and kept otherwise. -/
def maskAnyMatch (ToUpper : String → String) (l : List String) (form : Values) : Values :=
  ⟨form.entries.map (fun kv => ⟨kv.1, redact ToUpper l kv.1 kv.2⟩), by
    have hkeys : (form.entries.map
        (fun kv =>
          (⟨kv.1, redact ToUpper l kv.1 kv.2⟩ : Sigma fun _ : String => List String))).keys
        = form.entries.keys := by
      simp [List.keys, List.map_map, Function.comp_def]
    show (form.entries.map
        (fun kv =>
          (⟨kv.1, redact ToUpper l kv.1 kv.2⟩ : Sigma fun _ : String => List String))).keys.Nodup
    rw [hkeys]
    exact form.nodupKeys⟩

/-! ## Concrete inputs -/

/-- A handler that leaves the context alone and returns nil. -/
def okHandler : Handler := fun c => (c, none)

/-- The map `"user" ↦ ["alice"], "Password" ↦ ["secret123"]`. -/
def aliceParams : Values :=
  (Values.single "Password" ["secret123"]).insert "user" ["alice"]

/-- The same keys as `aliceParams`, with another password. -/
def aliceParams2 : Values :=
  (Values.single "Password" ["hunter2", "again"]).insert "user" ["alice"]

/-- A GET request whose resolved parameters are `aliceParams`. -/
def aliceGet : Context :=
  { Request := { Method := "GET", MultipartForm := none, Form := ∅ }
    Params := .urlValues aliceParams }

/-- A POST request with the ordinary form `aliceParams`, which is also its
resolved parameter set. -/
def alicePost : Context :=
  { Request := { Method := "POST", MultipartForm := none, Form := aliceParams }
    Params := .urlValues aliceParams }

/-- A multipart form with the value field `"CVC"` and the file field
`"avatar"` holding one file named `photo.png`. -/
def cvcAvatarForm : MultipartForm :=
  { Value := Values.single "CVC" ["999"]
    File := AList.singleton "avatar"
      [{ Filename := "photo.png", Size := 3, content := [137, 80, 78] }] }

/-- A POST request decoded as the multipart form `cvcAvatarForm`. -/
def cvcAvatarPost : Context :=
  { Request := { Method := "POST", MultipartForm := some cvcAvatarForm, Form := ∅ }
    Params := .urlValues (Values.single "CVC" ["999"]) }

/-- A multipart form whose value field `"CVC"` has no value. -/
def emptyCvcForm : MultipartForm :=
  { Value := Values.single "CVC" [], File := ∅ }

/-- A POST request decoded as the multipart form `emptyCvcForm`. -/
def emptyCvcPost : Context :=
  { Request := { Method := "POST", MultipartForm := some emptyCvcForm, Form := ∅ }
    Params := .urlValues ∅ }

/-- A GET request whose `Params()` is not a `url.Values`: a lookup function
that knows the user and the password. -/
def customParamsGet : Context :=
  { Request := { Method := "GET", MultipartForm := none, Form := ∅ }
    Params := .other (fun k =>
      if k = "user" then "alice" else if k = "Password" then "secret123" else "") }

/-- A GET request whose `Params()` is not a `url.Values` and knows nothing. -/
def emptyCustomParamsGet : Context :=
  { Request := { Method := "GET", MultipartForm := none, Form := ∅ }
    Params := .other (fun _ => "") }

/-- A multipart form in which the name `"avatar"` is both a value field and a
file field, next to the value field `"user"`. -/
def avatarTwiceForm : MultipartForm :=
  { Value := (Values.single "avatar" ["me", "myself"]).insert "user" ["alice"]
    File := AList.singleton "avatar"
      [{ Filename := "photo.png", Size := 3, content := [137, 80, 78] },
       { Filename := "face.jpg", Size := 2, content := [255, 216] }] }

/-! ## The inner loop and the fold over the form -/

theorem isExcluded_iff (ToUpper : String → String) (l : List String) (key : String) :
    isExcluded ToUpper l key = true ↔ ∃ e ∈ l, ToUpper key = ToUpper e := by
  simp [isExcluded]

theorem lookup_blcheck_of_ne (ToUpper : String → String) (key : String)
    (values : List String) (k : String) (hk : k ≠ key) :
    ∀ (l : List String) (copy : Values),
      (blcheck ToUpper key values l copy).lookup k = copy.lookup k := by
  intro l
  induction l with
  | nil => intro copy; rfl
  | cons e rest ih =>
    intro copy
    by_cases hm : ToUpper key = ToUpper e
    · simp [blcheck, hm, AList.lookup_insert_ne hk]
    · simp [blcheck, hm, ih, AList.lookup_insert_ne hk]

theorem lookup_blcheck_self (ToUpper : String → String) (key : String)
    (values : List String) :
    ∀ (l : List String) (e : String) (copy : Values),
      (blcheck ToUpper key values (e :: l) copy).lookup key
        = some (redact ToUpper (e :: l) key values) := by
  intro l
  induction l with
  | nil =>
    intro e copy
    by_cases hm : ToUpper key = ToUpper e
    · simp [blcheck, hm, redact, isExcluded]
    · simp [blcheck, hm, redact, isExcluded]
  | cons e2 rest ih =>
    intro e copy
    by_cases hm : ToUpper key = ToUpper e
    · simp [blcheck, hm, redact, isExcluded]
    · have h := ih e2 (copy.insert key values)
      have hstep : blcheck ToUpper key values (e :: e2 :: rest) copy
          = blcheck ToUpper key values (e2 :: rest) (copy.insert key values) := by
        simp [blcheck, hm]
      rw [hstep, h]
      simp [redact, isExcluded, hm]

theorem lookup_foldl_blcheck (ToUpper : String → String) (e : String) (l : List String)
    (k : String) :
    ∀ (es : List (Sigma fun _ : String => List String)) (init : Values),
      es.NodupKeys →
      (es.foldl (fun copy kv => blcheck ToUpper kv.1 kv.2 (e :: l) copy) init).lookup k
        = match es.dlookup k with
          | some v => some (redact ToUpper (e :: l) k v)
          | none => init.lookup k := by
  intro es
  induction es with
  | nil => intro init _; rfl
  | cons kv t ih =>
    intro init hnd
    obtain ⟨a, v⟩ := kv
    rw [List.nodupKeys_cons] at hnd
    obtain ⟨hnot, hnd⟩ := hnd
    rw [List.foldl_cons, ih _ hnd]
    by_cases hk : a = k
    · subst hk
      have hnone : List.dlookup a t = none := List.dlookup_eq_none.mpr hnot
      rw [List.dlookup_cons_eq, hnone]
      exact lookup_blcheck_self ToUpper a v l e init
    · rw [List.dlookup_cons_ne _ _ (Ne.symm hk)]
      cases List.dlookup k t with
      | some w => rfl
      | none => exact lookup_blcheck_of_ne ToUpper a v k (Ne.symm hk) (e :: l) init

theorem maskSecrets_eq_fold (ToUpper : String → String) (D : List String)
    (pl : parameterLogger) (form : Values) :
    maskSecrets ToUpper D pl form
      = form.entries.foldl
          (fun copy kv => blcheck ToUpper kv.1 kv.2 (effectiveList D pl) copy) ∅ := by
  unfold maskSecrets effectiveList
  cases h : pl.excluded <;> simp

/-- With no entry to compare with, the inner loop never runs and the copy stays
empty. -/
theorem maskSecrets_of_nil (ToUpper : String → String) (D : List String)
    (pl : parameterLogger) (form : Values) (h : effectiveList D pl = []) :
    maskSecrets ToUpper D pl form = ∅ := by
  rw [maskSecrets_eq_fold, h]
  generalize form.entries = es
  induction es with
  | nil => rfl
  | cons kv t ih =>
    simp only [List.foldl_cons, blcheck]
    exact ih

/-- With at least one entry to compare with, the output holds for every key of
the input its redacted value, and nothing else. -/
theorem lookup_maskSecrets (ToUpper : String → String) (D : List String)
    (pl : parameterLogger) (form : Values) (k : String)
    (h : effectiveList D pl ≠ []) :
    (maskSecrets ToUpper D pl form).lookup k
      = (form.lookup k).map (redact ToUpper (effectiveList D pl) k) := by
  rw [maskSecrets_eq_fold]
  cases hl : effectiveList D pl with
  | nil => exact absurd hl h
  | cons e l =>
    rw [lookup_foldl_blcheck ToUpper e l k form.entries ∅ form.nodupKeys]
    show _ = Option.map _ (List.dlookup k form.entries)
    cases List.dlookup k form.entries <;> simp

theorem redact_redact (ToUpper : String → String) (l : List String) (k : String)
    (v : List String) :
    redact ToUpper l k (redact ToUpper l k v) = redact ToUpper l k v := by
  unfold redact
  split <;> rfl

/-- Key-set preservation under a non-empty effective list. -/
theorem mem_maskSecrets_iff (ToUpper : String → String) (D : List String)
    (pl : parameterLogger) (form : Values) (k : String)
    (h : effectiveList D pl ≠ []) :
    k ∈ maskSecrets ToUpper D pl form ↔ k ∈ form := by
  rw [← AList.lookup_isSome, ← AList.lookup_isSome, lookup_maskSecrets ToUpper D pl form k h]
  simp

theorem lookup_maskSecrets_of_excluded (ToUpper : String → String) (D : List String)
    (pl : parameterLogger) (form : Values) (k : String) (hk : k ∈ form)
    (hex : ∃ e ∈ effectiveList D pl, ToUpper k = ToUpper e) :
    (maskSecrets ToUpper D pl form).lookup k = some filteredIndicator := by
  have hne : effectiveList D pl ≠ [] := by
    obtain ⟨e, he, _⟩ := hex
    exact List.ne_nil_of_mem he
  obtain ⟨v, hv⟩ := Option.isSome_iff_exists.mp (AList.lookup_isSome.mpr hk)
  rw [lookup_maskSecrets ToUpper D pl form k hne, hv]
  simp [redact, (isExcluded_iff ToUpper _ k).mpr hex]

theorem lookup_maskSecrets_of_not_excluded (ToUpper : String → String) (D : List String)
    (pl : parameterLogger) (form : Values) (k : String)
    (hne : effectiveList D pl ≠ [])
    (hex : ¬ ∃ e ∈ effectiveList D pl, ToUpper k = ToUpper e) :
    (maskSecrets ToUpper D pl form).lookup k = form.lookup k := by
  have hb : isExcluded ToUpper (effectiveList D pl) k = false := by
    rw [← Bool.not_eq_true, isExcluded_iff]
    exact hex
  rw [lookup_maskSecrets ToUpper D pl form k hne]
  cases form.lookup k <;> simp [redact, hb]

/-! ## Redaction -/

/-- C1: a key of the input that equals, after upper-casing, some entry of the
effective exclusion list is mapped by the output of `maskSecrets` to exactly
the one-element sequence `["[FILTERED]"]`, whatever values it had. -/
theorem maskSecrets_filters_excluded (ToUpper : String → String)
    (ParameterExclusionList : List String) (pl : parameterLogger) (form : Values)
    (k : String) (hk : k ∈ form)
    (hex : ∃ e ∈ effectiveList ParameterExclusionList pl, ToUpper k = ToUpper e) :
    (maskSecrets ToUpper ParameterExclusionList pl form).lookup k = some ["[FILTERED]"] :=
  lookup_maskSecrets_of_excluded ToUpper ParameterExclusionList pl form k hk hex

/-- The key `"creditcard"` with two values is filtered under the default list
by its entry `"CreditCard"`. -/
theorem maskSecrets_filters_excluded_witness :
    (maskSecrets asciiToUpper defaultParameterExclusionList ⟨[]⟩
        (Values.single "creditcard" ["4111", "1111"])).lookup "creditcard"
      = some ["[FILTERED]"] :=
  maskSecrets_filters_excluded asciiToUpper defaultParameterExclusionList ⟨[]⟩
    (Values.single "creditcard" ["4111", "1111"]) "creditcard"
    (AList.mem_keys.mpr (by decide)) ⟨"CreditCard", by decide, by decide⟩

/-- C2: with an empty receiver list and `ParameterExclusionList` set to the
empty list, the key `"user"` of the input is missing from the output of
`maskSecrets`: the only assignment of the original values stands inside the
loop over the exclusion entries, which then runs zero times. -/
theorem maskSecrets_loses_keys_without_exclusions :
    "user" ∈ (Values.single "user" ["alice"]).keys ∧
    "user" ∉ (maskSecrets asciiToUpper [] ⟨[]⟩ (Values.single "user" ["alice"])).keys := by
  decide

/-- C3: with an empty receiver list and `ParameterExclusionList` set to the
empty list no entry matches the key `"user"`, yet the output of `maskSecrets`
does not map it to its input values `["alice"]`: it holds nothing for it. -/
theorem maskSecrets_loses_values_without_exclusions :
    (¬ ∃ e ∈ effectiveList [] ⟨[]⟩, asciiToUpper "user" = asciiToUpper e) ∧
    (Values.single "user" ["alice"]).lookup "user" = some ["alice"] ∧
    (maskSecrets asciiToUpper [] ⟨[]⟩ (Values.single "user" ["alice"])).lookup "user"
      = none := by
  decide

/-- C4: two inputs with the same keys that agree on every key the effective
exclusion list does not match have the same output under `maskSecrets`, key by
key and as sets of entries: the values of excluded keys do not influence it. -/
theorem maskSecrets_noninterference (ToUpper : String → String)
    (ParameterExclusionList : List String) (pl : parameterLogger) (m₁ m₂ : Values)
    (hkeys : ∀ k, k ∈ m₁ ↔ k ∈ m₂)
    (hagree : ∀ k, (¬ ∃ e ∈ effectiveList ParameterExclusionList pl,
        ToUpper k = ToUpper e) → m₁.lookup k = m₂.lookup k) :
    (∀ k, (maskSecrets ToUpper ParameterExclusionList pl m₁).lookup k
      = (maskSecrets ToUpper ParameterExclusionList pl m₂).lookup k) ∧
    (maskSecrets ToUpper ParameterExclusionList pl m₁).entries.Perm
      (maskSecrets ToUpper ParameterExclusionList pl m₂).entries := by
  have hlookup : ∀ k, (maskSecrets ToUpper ParameterExclusionList pl m₁).lookup k
      = (maskSecrets ToUpper ParameterExclusionList pl m₂).lookup k := by
    intro k
    by_cases hnil : effectiveList ParameterExclusionList pl = []
    · rw [maskSecrets_of_nil ToUpper _ pl m₁ hnil, maskSecrets_of_nil ToUpper _ pl m₂ hnil]
    · by_cases hex : ∃ e ∈ effectiveList ParameterExclusionList pl, ToUpper k = ToUpper e
      · by_cases hk : k ∈ m₁
        · rw [lookup_maskSecrets_of_excluded ToUpper _ pl m₁ k hk hex,
            lookup_maskSecrets_of_excluded ToUpper _ pl m₂ k ((hkeys k).mp hk) hex]
        · have hk2 : k ∉ m₂ := fun h => hk ((hkeys k).mpr h)
          have h1 : k ∉ maskSecrets ToUpper ParameterExclusionList pl m₁ :=
            fun h => hk ((mem_maskSecrets_iff ToUpper _ pl m₁ k hnil).mp h)
          have h2 : k ∉ maskSecrets ToUpper ParameterExclusionList pl m₂ :=
            fun h => hk2 ((mem_maskSecrets_iff ToUpper _ pl m₂ k hnil).mp h)
          rw [AList.lookup_eq_none.mpr h1, AList.lookup_eq_none.mpr h2]
      · rw [lookup_maskSecrets_of_not_excluded ToUpper _ pl m₁ k hnil hex,
          lookup_maskSecrets_of_not_excluded ToUpper _ pl m₂ k hnil hex]
        exact hagree k hex
  refine ⟨hlookup, ?_⟩
  apply List.lookup_ext (AList.nodupKeys _) (AList.nodupKeys _)
  intro x y
  have h := hlookup x
  unfold AList.lookup at h
  rw [h]

/-- Two maps that differ in the values of `"Password"` only have the same
output at `"Password"` under the default list. -/
theorem maskSecrets_noninterference_witness :
    (maskSecrets asciiToUpper defaultParameterExclusionList ⟨[]⟩ aliceParams).lookup "Password"
      = (maskSecrets asciiToUpper defaultParameterExclusionList ⟨[]⟩ aliceParams2).lookup
          "Password" :=
  (maskSecrets_noninterference asciiToUpper defaultParameterExclusionList ⟨[]⟩
    aliceParams aliceParams2
    (by
      intro k
      simp [aliceParams, aliceParams2, Values.single, AList.mem_insert, AList.mem_keys])
    (by
      intro k hk
      by_cases h1 : k = "user"
      · subst h1; decide
      · by_cases h2 : k = "Password"
        · subst h2
          exact absurd ⟨"Password", by decide, rfl⟩ hk
        · simp [aliceParams, aliceParams2, Values.single, AList.lookup_insert_ne, h1, h2,
            AList.lookup, List.dlookup_cons_ne])).1
    "Password"

/-- C5: on a receiver with an empty exclusion list, with the four-entry default
in `ParameterExclusionList`, `maskSecrets` returns what it returns on a
receiver holding that four-entry list, and every key of the input whose
upper-case form is `"PASSWORD"` is mapped to `["[FILTERED]"]`. -/
theorem maskSecrets_empty_list_fallback (ToUpper : String → String)
    (pl : parameterLogger) (form : Values) (hpl : pl.excluded = [])
    (hup : ToUpper "Password" = "PASSWORD") :
    maskSecrets ToUpper ["Password", "PasswordConfirmation", "CreditCard", "CVC"] pl form
      = maskSecrets ToUpper ["Password", "PasswordConfirmation", "CreditCard", "CVC"]
          ⟨["Password", "PasswordConfirmation", "CreditCard", "CVC"]⟩ form ∧
    ∀ k ∈ form, ToUpper k = "PASSWORD" →
      (maskSecrets ToUpper ["Password", "PasswordConfirmation", "CreditCard", "CVC"]
        pl form).lookup k = some ["[FILTERED]"] := by
  refine ⟨?_, ?_⟩
  · simp [maskSecrets, hpl]
  · intro k hk hkup
    apply lookup_maskSecrets_of_excluded ToUpper _ pl form k hk
    refine ⟨"Password", ?_, ?_⟩
    · simp [effectiveList, hpl]
    · rw [hkup, hup]

/-- The key `"password"` is filtered by a receiver with an empty list. -/
theorem maskSecrets_empty_list_fallback_witness :
    (maskSecrets asciiToUpper defaultParameterExclusionList ⟨[]⟩
        (Values.single "password" ["hunter2"])).lookup "password" = some ["[FILTERED]"] :=
  (maskSecrets_empty_list_fallback asciiToUpper ⟨[]⟩ (Values.single "password" ["hunter2"])
    rfl (by decide)).2 "password" (AList.mem_keys.mpr (by decide)) (by decide)

/-- C6: `maskSecrets` is idempotent: masking its own output with the same
exclusion lists gives the same map, that is, one that holds for every key what
that output holds, with the same entries up to their order. -/
theorem maskSecrets_idempotent (ToUpper : String → String)
    (ParameterExclusionList : List String) (pl : parameterLogger) (form : Values) :
    (∀ k, (maskSecrets ToUpper ParameterExclusionList pl
            (maskSecrets ToUpper ParameterExclusionList pl form)).lookup k
      = (maskSecrets ToUpper ParameterExclusionList pl form).lookup k) ∧
    (maskSecrets ToUpper ParameterExclusionList pl
        (maskSecrets ToUpper ParameterExclusionList pl form)).entries.Perm
      (maskSecrets ToUpper ParameterExclusionList pl form).entries := by
  have hlookup : ∀ k, (maskSecrets ToUpper ParameterExclusionList pl
            (maskSecrets ToUpper ParameterExclusionList pl form)).lookup k
      = (maskSecrets ToUpper ParameterExclusionList pl form).lookup k := by
    intro k
    by_cases hnil : effectiveList ParameterExclusionList pl = []
    · rw [maskSecrets_of_nil ToUpper _ pl _ hnil, maskSecrets_of_nil ToUpper _ pl form hnil]
    · rw [lookup_maskSecrets ToUpper _ pl _ k hnil,
        lookup_maskSecrets ToUpper _ pl form k hnil]
      cases form.lookup k with
      | none => rfl
      | some v => simp [redact_redact]
  refine ⟨hlookup, ?_⟩
  apply List.lookup_ext (AList.nodupKeys _) (AList.nodupKeys _)
  intro x y
  have h := hlookup x
  unfold AList.lookup at h
  rw [h]

/-! ## The handler returned by `Middleware` -/

theorem addFormFieldTo_ne_next (ToUpper : String → String) (D : List String)
    (Marshal : Marshaler) (pl : parameterLogger) (form : Values) :
    ∀ e ∈ (addFormFieldTo ToUpper D Marshal pl form).1, e ≠ Event.next := by
  intro e he
  unfold addFormFieldTo at he
  cases hm : Marshal (some (maskSecrets ToUpper D pl form)) with
  | error err => simp [hm] at he
  | ok b =>
    simp [hm] at he
    simp [he]

theorem logForm_ne_next (ToUpper : String → String) (D : List String)
    (Marshal : Marshaler) (pl : parameterLogger) (c : Context) :
    ∀ e ∈ (logForm ToUpper D Marshal pl c).1, e ≠ Event.next := by
  intro e he
  unfold logForm at he
  cases hmp : c.Request.MultipartForm with
  | some mp =>
    simp only [hmp, multipartParamLogger] at he
    have h := addFormFieldTo_ne_next ToUpper D Marshal pl (multipartValues mp) e
    revert he h
    rcases addFormFieldTo ToUpper D Marshal pl (multipartValues mp) with ⟨evs, _ | err⟩ <;>
      exact fun he h => h he
  | none =>
    simp only [hmp] at he
    have h := addFormFieldTo_ne_next ToUpper D Marshal pl c.Request.Form e
    revert he h
    rcases addFormFieldTo ToUpper D Marshal pl c.Request.Form with ⟨evs, _ | err⟩ <;>
      exact fun he h => h he

theorem finalizer_ne_next (ToUpper : String → String) (D : List String)
    (Marshal : Marshaler) (pl : parameterLogger) (c : Context) :
    ∀ e ∈ finalizer ToUpper D Marshal pl c, e ≠ Event.next := by
  intro e he
  unfold finalizer at he
  simp only [List.mem_append] at he
  rcases he with he | he
  · split at he
    · have h := logForm_ne_next ToUpper D Marshal pl c e
      revert he h
      rcases logForm ToUpper D Marshal pl c with ⟨evs, _ | err⟩
      · exact fun he h => h he
      · intro he h
        simp only [List.mem_append, List.mem_singleton] at he
        rcases he with he | he
        · exact h he
        · simp [he]
    · simp at he
  · split at he
    · simp only [List.mem_cons, List.mem_singleton, List.not_mem_nil, or_false] at he
      rcases he with he | he <;> simp [he]
    · simp only [List.mem_singleton] at he
      simp [he]

/-- C7: the handler returned by `Middleware` returns exactly what `next`
returned, calls `next` exactly once, and does so before anything else: its
trace is the call followed by the events of the deferred function, none of
which is a call of `next`.  This holds for every serializer, failing ones
included. -/
theorem Middleware_passes_next_through (ToUpper : String → String)
    (ParameterExclusionList : List String) (Marshal : Marshaler) (pl : parameterLogger)
    (next : Handler) (c : Context) :
    (Middleware ToUpper ParameterExclusionList Marshal pl next c).result = (next c).2 ∧
    (Middleware ToUpper ParameterExclusionList Marshal pl next c).trace.count Event.next = 1 ∧
    (Middleware ToUpper ParameterExclusionList Marshal pl next c).trace
      = Event.next :: finalizer ToUpper ParameterExclusionList Marshal pl (next c).1 ∧
    ∀ e ∈ finalizer ToUpper ParameterExclusionList Marshal pl (next c).1,
      e ≠ Event.next := by
  have hfin := finalizer_ne_next ToUpper ParameterExclusionList Marshal pl (next c).1
  refine ⟨rfl, ?_, rfl, hfin⟩
  show (Event.next :: finalizer ToUpper ParameterExclusionList Marshal pl (next c).1).count
    Event.next = 1
  rw [List.count_cons_self, List.count_eq_zero.mpr (fun h => hfin _ h rfl)]

/-- C8, as stated, fails on the error path of the params serialization: when
the serializer returns an error, a GET request still gets the field `"params"`,
attached with the empty string after the error is logged, because the call
`c.LogField("params", string(b))` stands outside the error branch; on the POST
request the failure of the form leaves `"form"` out, as `addFormFieldTo`
returns before attaching it, and `"params"` is attached again. -/
theorem Middleware_attaches_params_after_failure :
    (Middleware asciiToUpper defaultParameterExclusionList failingMarshal ⟨[]⟩ okHandler
        aliceGet).trace
      = [Event.next, Event.LogError (Error.external "json: unsupported value"),
          Event.LogField "params" ""] ∧
    (Middleware asciiToUpper defaultParameterExclusionList failingMarshal ⟨[]⟩ okHandler
        alicePost).trace
      = [Event.next,
          Event.LogError (Error.unableToAddFormField aliceParams
            (Error.external "json: unsupported value")),
          Event.LogError (Error.external "json: unsupported value"),
          Event.LogField "params" ""] :=
  ⟨rfl, rfl⟩

/-- C9: for a request that, when `next` has returned, has method `"GET"` and a
`url.Values` parameter set `p` whose redacted form serializes to `s`, the
handler attaches the single field `"params"` with value `s`: no `"form"`
field and no error follow the call of `next`. -/
theorem Middleware_GET_logs_params_only (ToUpper : String → String)
    (ParameterExclusionList : List String) (Marshal : Marshaler) (pl : parameterLogger)
    (next : Handler) (c : Context) (p : Values) (s : String)
    (hmethod : (next c).1.Request.Method = "GET")
    (hparams : (next c).1.Params = ParamValues.urlValues p)
    (hs : Marshal (some (maskSecrets ToUpper ParameterExclusionList pl p)) = .ok s) :
    (Middleware ToUpper ParameterExclusionList Marshal pl next c).trace
      = [Event.next, Event.LogField "params" s] := by
  show Event.next :: finalizer ToUpper ParameterExclusionList Marshal pl (next c).1 = _
  unfold finalizer
  simp [hmethod, hparams, hs]

/-- The parameters `"user" ↦ ["alice"], "Password" ↦ ["secret123"]` of a GET
request are logged under the default list with the password filtered. -/
theorem Middleware_GET_logs_params_only_witness :
    (Middleware asciiToUpper defaultParameterExclusionList jsonMarshal ⟨[]⟩ okHandler
        aliceGet).trace
      = [Event.next,
          Event.LogField "params"
            "\x7b\"Password\":[\"[FILTERED]\"],\"user\":[\"alice\"]\x7d"] :=
  Middleware_GET_logs_params_only asciiToUpper defaultParameterExclusionList jsonMarshal
    ⟨[]⟩ okHandler aliceGet aliceParams
    "\x7b\"Password\":[\"[FILTERED]\"],\"user\":[\"alice\"]\x7d" rfl rfl rfl

/-! ## The combined map of a multipart form -/

theorem lookup_Add (uv : Values) (key value k : String) :
    (uv.Add key value).lookup k
      = if k = key then some ((uv.lookup key).getD [] ++ [value]) else uv.lookup k := by
  unfold Values.Add
  by_cases h : k = key
  · subst h
    simp
  · simp [h, AList.lookup_insert_ne h]

theorem lookup_foldl_Add {β : Type} (f : β → String) (key k : String) :
    ∀ (vs : List β) (uv : Values),
      (vs.foldl (fun uv vv => uv.Add key (f vv)) uv).lookup k
        = if k = key ∧ vs.map f ≠ [] then some ((uv.lookup key).getD [] ++ vs.map f)
          else uv.lookup k := by
  intro vs
  induction vs with
  | nil => intro uv; simp
  | cons x xs ih =>
    intro uv
    rw [List.foldl_cons, ih, lookup_Add, lookup_Add]
    by_cases hk : k = key
    · by_cases hxs : xs = []
      · simp [hk, hxs]
      · simp [hk, hxs]
    · simp [hk]

theorem lookup_foldl_foldl_Add {β : Type} (f : β → String) (k : String) :
    ∀ (es : List (Sigma fun _ : String => List β)) (init : Values),
      es.NodupKeys →
      (es.foldl (fun uv kv => kv.2.foldl (fun uv vv => uv.Add kv.1 (f vv)) uv) init).lookup k
        = if ((es.dlookup k).getD []).map f = [] then init.lookup k
          else some ((init.lookup k).getD [] ++ ((es.dlookup k).getD []).map f) := by
  intro es
  induction es with
  | nil => intro init _; simp
  | cons kv t ih =>
    intro init hnd
    obtain ⟨a, v⟩ := kv
    rw [List.nodupKeys_cons] at hnd
    obtain ⟨hnot, hnd⟩ := hnd
    rw [List.foldl_cons, ih _ hnd, lookup_foldl_Add f a k v init]
    by_cases hk : a = k
    · subst hk
      have hnone : List.dlookup a t = none := List.dlookup_eq_none.mpr hnot
      rw [List.dlookup_cons_eq, hnone]
      by_cases hv : v = []
      · simp [hv]
      · simp [hv]
    · rw [List.dlookup_cons_ne _ _ (Ne.symm hk)]
      simp [Ne.symm hk]

/-- The combined map holds under each name what the form submits under it, and
holds nothing under a name with no value and no file. -/
theorem lookup_multipartValues (mp : MultipartForm) (k : String) :
    (multipartValues mp).lookup k
      = if combinedValues mp k = [] then none else some (combinedValues mp k) := by
  have h1 := lookup_foldl_foldl_Add (fun s : String => s) k mp.Value.entries ∅
    mp.Value.nodupKeys
  have h2 := lookup_foldl_foldl_Add FileHeader.Filename k mp.File.entries
    (mp.Value.entries.foldl
      (fun uv kv => kv.2.foldl (fun uv vv => uv.Add kv.1 vv) uv) ∅) mp.File.nodupKeys
  unfold multipartValues combinedValues
  simp only [] at h1 h2 ⊢
  rw [h2, h1]
  show _ = if (List.dlookup k mp.Value.entries).getD []
      ++ ((List.dlookup k mp.File.entries).getD []).map FileHeader.Filename = [] then none
    else some ((List.dlookup k mp.Value.entries).getD []
      ++ ((List.dlookup k mp.File.entries).getD []).map FileHeader.Filename)
  generalize (List.dlookup k mp.Value.entries).getD [] = vs
  generalize ((List.dlookup k mp.File.entries).getD []).map FileHeader.Filename = fs
  by_cases hv : vs = []
  · by_cases hf : fs = []
    · simp [hv, hf]
    · simp [hv, hf]
  · by_cases hf : fs = []
    · simp [hv, hf]
    · simp [hv, hf]

/-- C10, as stated, fails: `"CVC"` is a field name of the value map of
`emptyCvcForm`, but it has no value there, so the combined map has no key
`"CVC"` and the `"form"` field is the serialization of the empty map, with
nothing filtered in it. -/
theorem multipartValues_omits_empty_field :
    "CVC" ∈ emptyCvcForm.Value.keys ∧
    "CVC" ∉ (multipartValues emptyCvcForm).keys ∧
    (Middleware asciiToUpper defaultParameterExclusionList jsonMarshal ⟨[]⟩ okHandler
        emptyCvcPost).trace
      = [Event.next, Event.LogField "form" "\x7b\x7d", Event.LogField "params" "\x7b\x7d"] :=
  ⟨by decide, by decide, rfl⟩

/-- C10, amended: for a request that, when `next` has returned, has a method
other than `"GET"` and was decoded as the multipart form `mp`, the first
event after the call of `next` attaches the field `"form"` with the
serialization of `maskSecrets` of the combined map, and no other `"form"`
field follows.  The combined map has as keys the names with at least one
value or at least one file, and maps each to its values followed by the
filenames of its files; a key of it that the effective list matches is
filtered. -/
theorem Middleware_multipart_logs_form (ToUpper : String → String)
    (ParameterExclusionList : List String) (Marshal : Marshaler) (pl : parameterLogger)
    (next : Handler) (c : Context) (mp : MultipartForm) (s : String)
    (hmethod : (next c).1.Request.Method ≠ "GET")
    (hmp : (next c).1.Request.MultipartForm = some mp)
    (hs : Marshal (some (maskSecrets ToUpper ParameterExclusionList pl (multipartValues mp)))
      = .ok s) :
    (∃ rest, (Middleware ToUpper ParameterExclusionList Marshal pl next c).trace
        = Event.next :: Event.LogField "form" s :: rest ∧
      ∀ v, Event.LogField "form" v ∉ rest) ∧
    (∀ k, (multipartValues mp).lookup k
      = if combinedValues mp k = [] then none else some (combinedValues mp k)) ∧
    (∀ k, k ∈ multipartValues mp →
      (∃ e ∈ effectiveList ParameterExclusionList pl, ToUpper k = ToUpper e) →
      (maskSecrets ToUpper ParameterExclusionList pl (multipartValues mp)).lookup k
        = some ["[FILTERED]"]) := by
  refine ⟨?_, lookup_multipartValues mp, ?_⟩
  · have htrace : (Middleware ToUpper ParameterExclusionList Marshal pl next c).trace
        = Event.next :: finalizer ToUpper ParameterExclusionList Marshal pl (next c).1 := rfl
    rw [htrace]
    unfold finalizer
    simp only [logForm, hmp, multipartParamLogger, addFormFieldTo, hs]
    rw [if_pos hmethod, List.singleton_append]
    refine ⟨_, rfl, ?_⟩
    intro v hv
    split at hv <;> simp at hv
  · intro k hk hex
    exact lookup_maskSecrets_of_excluded ToUpper ParameterExclusionList pl
      (multipartValues mp) k hk hex

/-- The POST request with value field `"CVC" = "999"` and file `photo.png`
under `"avatar"` logs the form with the value filtered and the filename
kept. -/
theorem Middleware_multipart_logs_form_witness :
    ∃ rest, (Middleware asciiToUpper defaultParameterExclusionList jsonMarshal ⟨[]⟩
        okHandler cvcAvatarPost).trace
        = Event.next
          :: Event.LogField "form"
              "\x7b\"CVC\":[\"[FILTERED]\"],\"avatar\":[\"photo.png\"]\x7d"
          :: rest ∧
      ∀ v, Event.LogField "form" v ∉ rest :=
  (Middleware_multipart_logs_form asciiToUpper defaultParameterExclusionList jsonMarshal
    ⟨[]⟩ okHandler cvcAvatarPost cvcAvatarForm
    "\x7b\"CVC\":[\"[FILTERED]\"],\"avatar\":[\"photo.png\"]\x7d"
    (by decide) rfl rfl).1

/-! ## No partial redaction -/

/-- C11: every key of the output of `maskSecrets` is a key of the input, and
its output value is either exactly the input's value sequence or exactly the
sentinel `["[FILTERED]"]`, never a mixture. -/
theorem maskSecrets_original_or_sentinel (ToUpper : String → String)
    (ParameterExclusionList : List String) (pl : parameterLogger) (form : Values)
    (k : String) (v : List String)
    (hv : (maskSecrets ToUpper ParameterExclusionList pl form).lookup k = some v) :
    k ∈ form ∧ (form.lookup k = some v ∨ v = ["[FILTERED]"]) := by
  by_cases hnil : effectiveList ParameterExclusionList pl = []
  · rw [maskSecrets_of_nil ToUpper _ pl form hnil] at hv
    simp at hv
  · rw [lookup_maskSecrets ToUpper _ pl form k hnil] at hv
    cases hf : form.lookup k with
    | none => simp [hf] at hv
    | some w =>
      refine ⟨AList.lookup_isSome.mp (by simp [hf]), ?_⟩
      simp only [hf, Option.map_some'] at hv
      have hv2 : redact ToUpper (effectiveList ParameterExclusionList pl) k w = v :=
        Option.some.inj hv
      unfold redact at hv2
      split at hv2
      · right
        exact hv2.symm
      · left
        rw [hv2]

/-- The output for `aliceParams` holds the whole sentinel under
`"Password"`. -/
theorem maskSecrets_original_or_sentinel_witness :
    "Password" ∈ aliceParams ∧
    (aliceParams.lookup "Password" = some ["[FILTERED]"] ∨
      ["[FILTERED]"] = ["[FILTERED]"]) :=
  maskSecrets_original_or_sentinel asciiToUpper defaultParameterExclusionList ⟨[]⟩
    aliceParams "Password" ["[FILTERED]"] (by decide)

/-! ## The events of the deferred function -/

/-- The deferred function in one piece: for a method other than `"GET"` it
serializes the redacted `formValues` and attaches `"form"`, or logs the wrapped
error; then it serializes `loggedParams` and attaches `"params"` in either
case. -/
theorem finalizer_eq (ToUpper : String → String) (D : List String)
    (Marshal : Marshaler) (pl : parameterLogger) (c : Context) :
    finalizer ToUpper D Marshal pl c
      = (if c.Request.Method ≠ "GET" then
          (match Marshal (some (maskSecrets ToUpper D pl (formValues c))) with
            | .ok b => [Event.LogField "form" b]
            | .error e => [Event.LogError (Error.unableToAddFormField (formValues c) e)])
          else [])
        ++ (match Marshal (loggedParams ToUpper D pl c) with
            | .error err => [Event.LogError err, Event.LogField "params" ""]
            | .ok b => [Event.LogField "params" b]) := by
  by_cases hm : c.Request.Method = "GET"
  · simp [finalizer, loggedParams, hm]
  · cases hmp : c.Request.MultipartForm with
    | some mp =>
      cases hM : Marshal (some (maskSecrets ToUpper D pl (multipartValues mp))) <;>
        simp [finalizer, loggedParams, formValues, logForm, multipartParamLogger,
          addFormFieldTo, hm, hmp, hM]
    | none =>
      cases hM : Marshal (some (maskSecrets ToUpper D pl c.Request.Form)) <;>
        simp [finalizer, loggedParams, formValues, logForm, addFormFieldTo, hm, hmp, hM]

/-- C12: for a request whose `Params()` is not a `url.Values`, the value
serialized under `"params"` is the nil map, whatever the parameter set holds:
a parameter set that knows the user and one that knows nothing are both logged
as `null`. -/
theorem Middleware_logs_nil_for_other_params :
    (Middleware asciiToUpper defaultParameterExclusionList jsonMarshal ⟨[]⟩ okHandler
        customParamsGet).trace
      = [Event.next, Event.LogField "params" "null"] ∧
    (Middleware asciiToUpper defaultParameterExclusionList jsonMarshal ⟨[]⟩ okHandler
        emptyCustomParamsGet).trace
      = [Event.next, Event.LogField "params" "null"] :=
  ⟨rfl, rfl⟩

/-- C13: for a request that, when `next` has returned, has a method other than
`"GET"` and no multipart form, and whose redacted `Form` serializes to `s`,
the handler attaches `"form"` with value `s` right after the call of `next`,
before it attaches `"params"`, and attaches no second `"form"`; and for every
request, a `"form"` field in the trace means the method is not `"GET"`. -/
theorem Middleware_logs_form_before_params (ToUpper : String → String)
    (ParameterExclusionList : List String) (Marshal : Marshaler) (pl : parameterLogger)
    (next : Handler) (c : Context) (s : String)
    (hmethod : (next c).1.Request.Method ≠ "GET")
    (hmp : (next c).1.Request.MultipartForm = none)
    (hs : Marshal (some (maskSecrets ToUpper ParameterExclusionList pl
      (next c).1.Request.Form)) = .ok s) :
    (∃ rest, (Middleware ToUpper ParameterExclusionList Marshal pl next c).trace
        = Event.next :: Event.LogField "form" s :: rest ∧
      (∃ v, Event.LogField "params" v ∈ rest) ∧
      ∀ v, Event.LogField "form" v ∉ rest) ∧
    (∀ (next' : Handler) (c' : Context) (v : String),
      Event.LogField "form" v
        ∈ (Middleware ToUpper ParameterExclusionList Marshal pl next' c').trace →
      (next' c').1.Request.Method ≠ "GET") := by
  constructor
  · have htrace : (Middleware ToUpper ParameterExclusionList Marshal pl next c).trace
        = Event.next :: finalizer ToUpper ParameterExclusionList Marshal pl (next c).1 := rfl
    have hform : formValues (next c).1 = (next c).1.Request.Form := by
      simp [formValues, hmp]
    rw [htrace, finalizer_eq, hform, hs, if_pos hmethod]
    refine ⟨_, rfl, ?_, ?_⟩
    · cases Marshal (loggedParams ToUpper ParameterExclusionList pl (next c).1) <;> simp
    · intro v
      cases Marshal (loggedParams ToUpper ParameterExclusionList pl (next c).1) <;> simp
  · intro next' c' v hv hget
    have htrace : (Middleware ToUpper ParameterExclusionList Marshal pl next' c').trace
        = Event.next :: finalizer ToUpper ParameterExclusionList Marshal pl (next' c').1 := rfl
    rw [htrace, finalizer_eq] at hv
    revert hv
    cases Marshal (loggedParams ToUpper ParameterExclusionList pl (next' c').1) <;>
      simp [hget]

/-- The POST request with the ordinary form `aliceParams` logs the redacted
form first and the redacted parameters second. -/
theorem Middleware_logs_form_before_params_witness :
    ∃ rest, (Middleware asciiToUpper defaultParameterExclusionList jsonMarshal ⟨[]⟩
        okHandler alicePost).trace
        = Event.next
          :: Event.LogField "form" "\x7b\"Password\":[\"[FILTERED]\"],\"user\":[\"alice\"]\x7d"
          :: rest ∧
      (∃ v, Event.LogField "params" v ∈ rest) ∧
      ∀ v, Event.LogField "form" v ∉ rest :=
  (Middleware_logs_form_before_params asciiToUpper defaultParameterExclusionList jsonMarshal
    ⟨[]⟩ okHandler alicePost
    "\x7b\"Password\":[\"[FILTERED]\"],\"user\":[\"alice\"]\x7d"
    (by decide) rfl rfl).1

/-- C14: the trace of the handler holds at most two error-level entries; an
error-level entry in it means that the serialization of the redacted form map
(on a method other than `"GET"`) or of the parameter set has failed; and when
both serializations succeed the trace holds none. -/
theorem Middleware_logs_errors_only_on_failure (ToUpper : String → String)
    (ParameterExclusionList : List String) (Marshal : Marshaler) (pl : parameterLogger)
    (next : Handler) (c : Context) :
    ((Middleware ToUpper ParameterExclusionList Marshal pl next c).trace.filter
      Event.isError).length ≤ 2 ∧
    (∀ err, Event.LogError err
        ∈ (Middleware ToUpper ParameterExclusionList Marshal pl next c).trace →
      ((next c).1.Request.Method ≠ "GET" ∧
        ∃ e, Marshal (some (maskSecrets ToUpper ParameterExclusionList pl
          (formValues (next c).1))) = .error e) ∨
      ∃ e, Marshal (loggedParams ToUpper ParameterExclusionList pl (next c).1) = .error e) ∧
    ((∃ s, Marshal (some (maskSecrets ToUpper ParameterExclusionList pl
          (formValues (next c).1))) = .ok s) →
      (∃ s, Marshal (loggedParams ToUpper ParameterExclusionList pl (next c).1) = .ok s) →
      ∀ err, Event.LogError err
        ∉ (Middleware ToUpper ParameterExclusionList Marshal pl next c).trace) := by
  have htrace : (Middleware ToUpper ParameterExclusionList Marshal pl next c).trace
      = Event.next :: finalizer ToUpper ParameterExclusionList Marshal pl (next c).1 := rfl
  rw [htrace, finalizer_eq]
  generalize Marshal (some (maskSecrets ToUpper ParameterExclusionList pl
    (formValues (next c).1))) = rf
  generalize Marshal (loggedParams ToUpper ParameterExclusionList pl (next c).1) = rp
  by_cases hm : (next c).1.Request.Method = "GET" <;>
    cases rf <;> cases rp <;> simp [hm, Event.isError]

/-- The POST request with the ordinary form `aliceParams` and a serializer that
succeeds logs no error. -/
theorem Middleware_logs_errors_only_on_failure_witness :
    ¬ ∃ err, Event.LogError err
      ∈ (Middleware asciiToUpper defaultParameterExclusionList jsonMarshal ⟨[]⟩ okHandler
          alicePost).trace :=
  fun ⟨err, h⟩ =>
    (Middleware_logs_errors_only_on_failure asciiToUpper defaultParameterExclusionList
      jsonMarshal ⟨[]⟩ okHandler alicePost).2.2 ⟨_, rfl⟩ ⟨_, rfl⟩ err h

/-- C8, amended: when the serialization of the params value fails, the error
is logged; when the serialization of the redacted form map fails, on a request
whose method is not `"GET"`, the error is logged wrapped with the form map and
no field is attached under the key `"form"`. -/
theorem Middleware_logs_serialization_failure (ToUpper : String → String)
    (ParameterExclusionList : List String) (Marshal : Marshaler) (pl : parameterLogger)
    (next : Handler) (c : Context) :
    (∀ e, Marshal (loggedParams ToUpper ParameterExclusionList pl (next c).1) = .error e →
      Event.LogError e
        ∈ (Middleware ToUpper ParameterExclusionList Marshal pl next c).trace) ∧
    (∀ e, (next c).1.Request.Method ≠ "GET" →
      Marshal (some (maskSecrets ToUpper ParameterExclusionList pl
        (formValues (next c).1))) = .error e →
      Event.LogError (Error.unableToAddFormField (formValues (next c).1) e)
        ∈ (Middleware ToUpper ParameterExclusionList Marshal pl next c).trace ∧
      ∀ v, Event.LogField "form" v
        ∉ (Middleware ToUpper ParameterExclusionList Marshal pl next c).trace) := by
  have htrace : (Middleware ToUpper ParameterExclusionList Marshal pl next c).trace
      = Event.next :: finalizer ToUpper ParameterExclusionList Marshal pl (next c).1 := rfl
  rw [htrace, finalizer_eq]
  constructor
  · intro e he
    rw [he]
    simp
  · intro e hm he
    rw [he, if_pos hm]
    cases Marshal (loggedParams ToUpper ParameterExclusionList pl (next c).1) <;> simp

/-- On the POST request with the ordinary form `aliceParams`, a failing
serializer has its error logged, wrapped with the form, and no `"form"` field
is attached. -/
theorem Middleware_logs_serialization_failure_witness :
    Event.LogError (Error.unableToAddFormField aliceParams
        (Error.external "json: unsupported value"))
      ∈ (Middleware asciiToUpper defaultParameterExclusionList failingMarshal ⟨[]⟩
          okHandler alicePost).trace ∧
    ¬ ∃ v, Event.LogField "form" v
      ∈ (Middleware asciiToUpper defaultParameterExclusionList failingMarshal ⟨[]⟩
          okHandler alicePost).trace :=
  have h := (Middleware_logs_serialization_failure asciiToUpper
    defaultParameterExclusionList failingMarshal ⟨[]⟩ okHandler alicePost).2
    (Error.external "json: unsupported value") (by decide) rfl
  ⟨h.1, fun ⟨v, hv⟩ => h.2 v hv⟩

/-! ## First match and any match -/

theorem dlookup_map_redact (ToUpper : String → String) (l : List String) (k : String) :
    ∀ es : List (Sigma fun _ : String => List String),
      List.dlookup k (es.map (fun kv =>
          (⟨kv.1, redact ToUpper l kv.1 kv.2⟩ : Sigma fun _ : String => List String)))
        = (List.dlookup k es).map (redact ToUpper l k) := by
  intro es
  induction es with
  | nil => rfl
  | cons kv t ih =>
    obtain ⟨a, v⟩ := kv
    by_cases hk : a = k
    · subst hk
      simp [List.dlookup_cons_eq]
    · simp only [List.map_cons]
      rw [List.dlookup_cons_ne _ _ (Ne.symm hk), List.dlookup_cons_ne _ _ (Ne.symm hk), ih]

theorem lookup_maskAnyMatch (ToUpper : String → String) (l : List String) (form : Values)
    (k : String) :
    (maskAnyMatch ToUpper l form).lookup k = (form.lookup k).map (redact ToUpper l k) :=
  dlookup_map_redact ToUpper l k form.entries

theorem isExcluded_congr (ToUpper : String → String) (l₁ l₂ : List String) (k : String)
    (hset : ∀ u, u ∈ l₁.map ToUpper ↔ u ∈ l₂.map ToUpper) :
    isExcluded ToUpper l₁ k = isExcluded ToUpper l₂ k := by
  have h : ∀ l : List String, isExcluded ToUpper l k = true ↔ ToUpper k ∈ l.map ToUpper := by
    intro l
    rw [isExcluded_iff, List.mem_map]
    constructor
    · rintro ⟨e, he, heq⟩
      exact ⟨e, he, heq.symm⟩
    · rintro ⟨e, he, heq⟩
      exact ⟨e, he, heq.symm⟩
  rw [Bool.eq_iff_iff, h, h]
  exact hset _

/-- C15: with non-empty effective lists, the first-match scan of `maskSecrets`
gives the map of the any-match policy: a key of the input is mapped to
`["[FILTERED]"]` if some entry equals it after upper-casing both, and to its
input values otherwise.  Hence two effective lists with the same set of
upper-cased entries, whatever the order, the repetitions and the letter case of
their entries, give the same output. -/
theorem maskSecrets_any_match (ToUpper : String → String) (D₁ D₂ : List String)
    (pl₁ pl₂ : parameterLogger) (form : Values)
    (h₁ : effectiveList D₁ pl₁ ≠ []) (h₂ : effectiveList D₂ pl₂ ≠ [])
    (hset : ∀ u, u ∈ (effectiveList D₁ pl₁).map ToUpper
      ↔ u ∈ (effectiveList D₂ pl₂).map ToUpper) :
    (∀ k, (maskSecrets ToUpper D₁ pl₁ form).lookup k
      = (maskAnyMatch ToUpper (effectiveList D₁ pl₁) form).lookup k) ∧
    (∀ k v, form.lookup k = some v →
      ((∃ e ∈ effectiveList D₁ pl₁, ToUpper k = ToUpper e) →
        (maskSecrets ToUpper D₁ pl₁ form).lookup k = some ["[FILTERED]"]) ∧
      ((¬ ∃ e ∈ effectiveList D₁ pl₁, ToUpper k = ToUpper e) →
        (maskSecrets ToUpper D₁ pl₁ form).lookup k = some v)) ∧
    (∀ k, (maskSecrets ToUpper D₁ pl₁ form).lookup k
      = (maskSecrets ToUpper D₂ pl₂ form).lookup k) ∧
    (maskSecrets ToUpper D₁ pl₁ form).entries.Perm
      (maskSecrets ToUpper D₂ pl₂ form).entries := by
  have hsame : ∀ k, (maskSecrets ToUpper D₁ pl₁ form).lookup k
      = (maskSecrets ToUpper D₂ pl₂ form).lookup k := by
    intro k
    rw [lookup_maskSecrets ToUpper D₁ pl₁ form k h₁,
      lookup_maskSecrets ToUpper D₂ pl₂ form k h₂]
    unfold redact
    rw [isExcluded_congr ToUpper _ _ k hset]
  refine ⟨?_, ?_, hsame, ?_⟩
  · intro k
    rw [lookup_maskSecrets ToUpper D₁ pl₁ form k h₁, lookup_maskAnyMatch]
  · intro k v hv
    constructor
    · intro hex
      exact lookup_maskSecrets_of_excluded ToUpper D₁ pl₁ form k
        (AList.lookup_isSome.mp (by simp [hv])) hex
    · intro hex
      rw [lookup_maskSecrets_of_not_excluded ToUpper D₁ pl₁ form k h₁ hex, hv]
  · apply List.lookup_ext (AList.nodupKeys _) (AList.nodupKeys _)
    intro x y
    have h := hsame x
    unfold AList.lookup at h
    rw [h]

/-- The lists `["Password", "CVC"]` and `["cvc", "PASSWORD", "password"]` give
the same output at `"Password"`. -/
theorem maskSecrets_any_match_witness :
    (maskSecrets asciiToUpper [] ⟨["Password", "CVC"]⟩ aliceParams).lookup "Password"
      = (maskSecrets asciiToUpper [] ⟨["cvc", "PASSWORD", "password"]⟩ aliceParams).lookup
          "Password" :=
  (maskSecrets_any_match asciiToUpper [] [] ⟨["Password", "CVC"]⟩
    ⟨["cvc", "PASSWORD", "password"]⟩ aliceParams (by decide) (by decide)
    (by
      intro u
      have e₁ : (effectiveList [] ⟨["Password", "CVC"]⟩).map asciiToUpper
          = ["PASSWORD", "CVC"] := by decide
      have e₂ : (effectiveList [] ⟨["cvc", "PASSWORD", "password"]⟩).map asciiToUpper
          = ["CVC", "PASSWORD", "PASSWORD"] := by decide
      rw [e₁, e₂]
      simp only [List.mem_cons, List.mem_singleton, List.not_mem_nil, or_false]
      tauto)).2.2.1 "Password"

/-! ## The combined map and the iteration order -/

/-- C16: a name is a key of the combined map built by `multipartParamLogger`
exactly when it has at least one value or at least one file, and the combined
map then holds the values of the name in their order followed by the filenames
of its files in their order.  The map does not depend on the order in which
the two maps of the form are visited: forms with the same entries in another
order give the same combined map. -/
theorem multipartValues_order_independent (mp : MultipartForm) :
    (∀ k, k ∈ multipartValues mp
      ↔ (mp.Value.lookup k).getD [] ≠ [] ∨ (mp.File.lookup k).getD [] ≠ []) ∧
    (∀ k, k ∈ multipartValues mp →
      (multipartValues mp).lookup k
        = some ((mp.Value.lookup k).getD []
            ++ ((mp.File.lookup k).getD []).map FileHeader.Filename)) ∧
    (∀ mp' : MultipartForm, mp'.Value.entries.Perm mp.Value.entries →
      mp'.File.entries.Perm mp.File.entries →
      (∀ k, (multipartValues mp').lookup k = (multipartValues mp).lookup k) ∧
      (multipartValues mp').entries.Perm (multipartValues mp).entries) := by
  have hmem : ∀ k, k ∈ multipartValues mp ↔ combinedValues mp k ≠ [] := by
    intro k
    rw [← AList.lookup_isSome, lookup_multipartValues]
    by_cases h : combinedValues mp k = [] <;> simp [h]
  refine ⟨?_, ?_, ?_⟩
  · intro k
    rw [hmem]
    simp only [combinedValues, ne_eq, List.append_eq_nil, List.map_eq_nil_iff]
    tauto
  · intro k hk
    rw [lookup_multipartValues, if_neg ((hmem k).mp hk)]
    rfl
  · intro mp' hV hF
    have hsame : ∀ k, (multipartValues mp').lookup k = (multipartValues mp).lookup k := by
      intro k
      have hc : combinedValues mp' k = combinedValues mp k := by
        unfold combinedValues
        rw [AList.perm_lookup hV, AList.perm_lookup hF]
      rw [lookup_multipartValues, lookup_multipartValues, hc]
    refine ⟨hsame, ?_⟩
    apply List.lookup_ext (AList.nodupKeys _) (AList.nodupKeys _)
    intro x y
    have h := hsame x
    unfold AList.lookup at h
    rw [h]

/-- The name `"avatar"`, a value field with two values and a file field with two
files, holds its values and then its filenames in the combined map. -/
theorem multipartValues_order_independent_witness :
    (multipartValues avatarTwiceForm).lookup "avatar"
      = some (((avatarTwiceForm.Value.lookup "avatar").getD [])
          ++ ((avatarTwiceForm.File.lookup "avatar").getD []).map FileHeader.Filename) ∧
    (multipartValues avatarTwiceForm).lookup "avatar"
      = some ["me", "myself", "photo.png", "face.jpg"] :=
  ⟨(multipartValues_order_independent avatarTwiceForm).2.1 "avatar"
    (AList.mem_keys.mpr (by decide)), by decide⟩

end paramlogger

